import Mathlib

/-!
Verification of the go-codec-dageth trie-node / entity codec against its
natural-language specification.

The development shallowly embeds the Go sources:
  - RLP items and their canonical encoder/decoder (the repository delegates to the
    external go-ethereum rlp package; its canonical-strict behaviour is modelled here).
  - shared/utils.go : hex-prefix path compaction (hexToCompact / compactToHex).
  - state_account   : account graph-node decode (src/unnamed/part_003) and encode
    (src/state_account/marshal.go).
  - rct             : receipt decode (src/rct/unmarshal.go) and encode (src/rct/marshal.go).
  - trie            : trie-node decode (src/trie/marshal.go, DecodeTrieNodeBytes and its
    helpers) and encode (src/unnamed/part_004, AppendEncode and its helpers).

Bytes are lists of Nat (each < 256 where it matters); Go errors are an explicit
error type; Go runtime panics (out-of-bounds indexing, failed type assertions)
are modelled by the distinguished error value Err.goPanic, separate from every
returned error.
-/

set_option maxRecDepth 8192

namespace DagEth

/-- Error type covering the returned Go errors of the embedded functions, plus
the distinguished value goPanic which models a Go runtime panic (crash), never a
returned error. -/
inductive Err where
  | malformedRLP : Err
  | unexpectedShape : Err
  | unknownHexPrefix : Err
  | unrecognizedNodeType : Err
  | extensionPathAssert : Err
  | extensionChildAssert : Err
  | leafPathAssert : Err
  | leafValueAssert : Err
  | branchChildLength (len : Nat) : Err
  | branchChildAssert : Err
  | inlineEntryCount (n : Nat) : Err
  | inlineNotLeaf : Err
  | branchValueAssert : Err
  | unsupportedCodec (codec : Nat) : Err
  | missingField (key : String) : Err
  | wrongFieldKind : Err
  | unknownTxType (ty : Nat) : Err
  | unrecognizedTxType (ty : Nat) : Err
  | invalidReceiptStatus : Err
  | unrecognizedReceiptStatus : Err
  | incompleteNode : Err
  | goPanic : Err
deriving DecidableEq, Repr

/-- RLP value: a byte string or a (possibly nested) list, mirroring how
go-ethereum rlp decodes into a Go value of type interface slice (each element a
byte slice or a nested interface slice). -/
inductive RlpItem where
  | bytes (bs : List Nat) : RlpItem
  | list (items : List RlpItem) : RlpItem

/-- Minimal big-endian bytes of a natural number, with explicit fuel so that the
kernel can evaluate it (fuel at least n always suffices). Zero encodes to the
empty string, as in go-ethereum rlp integer encoding. -/
def beBytesAux : Nat → Nat → List Nat
  | 0, _ => []
  | fuel + 1, n => if n = 0 then [] else beBytesAux fuel (n / 256) ++ [n % 256]

/-- Minimal big-endian byte string of a natural number (empty for zero). -/
def beBytes (n : Nat) : List Nat := beBytesAux n n

/-- Big-endian value of a byte string, as read by go-ethereum rlp and by
binary.BigEndian. -/
def readBE (bs : List Nat) : Nat := bs.foldl (fun acc b => acc * 256 + b) 0

/-- Fixed 8-byte big-endian representation of a value below 2^64, as produced by
binary.BigEndian.PutUint64. -/
def u64be (n : Nat) : List Nat :=
  (List.range 8).map fun i => n / 256 ^ (7 - i) % 256

/-- Header of an RLP payload: base is 128 for strings and 192 for lists
(go-ethereum rlp puthead). -/
def encodeLength (base len : Nat) : List Nat :=
  if len < 56 then [base + len] else (base + 55 + (beBytes len).length) :: beBytes len

/-- Canonical RLP encoding of a byte string: a single byte below 128 encodes as
itself, otherwise a string header precedes the bytes. -/
def encodeBytes (bs : List Nat) : List Nat :=
  if bs.length = 1 ∧ bs.headD 0 < 128 then bs else encodeLength 128 bs.length ++ bs

/-- Header of an RLP list with the given already-encoded payload, followed by
the payload (the canonical form emitted by the external go-ethereum rlp
encoder for a list value). -/
def encodeListPayload (payload : List Nat) : List Nat :=
  encodeLength 192 payload.length ++ payload

/-- Canonical RLP encoding of a flat list of byte-string fields, as
rlp.Encode produces for a Go interface slice whose members are all byte
slices (every field list the repository encodes has this shape). -/
def encodeFieldsRLP (fields : List (List Nat)) : List Nat :=
  encodeListPayload (fields.map encodeBytes).flatten

mutual

/-- Characterization of the canonical RLP encoding of an item, mirroring the
external go-ethereum rlp encoder the repository delegates to. -/
inductive IsRlpEnc : RlpItem → List Nat → Prop where
  | bytes (bs : List Nat) : IsRlpEnc (.bytes bs) (encodeBytes bs)
  | list (items : List RlpItem) (payload : List Nat) :
      IsRlpEncList items payload →
      IsRlpEnc (.list items) (encodeLength 192 payload.length ++ payload)

/-- Characterization of the concatenated canonical RLP encodings of a sequence
of items (an RLP list payload). -/
inductive IsRlpEncList : List RlpItem → List Nat → Prop where
  | nil : IsRlpEncList [] []
  | cons (i : RlpItem) (enc : List Nat) (rest : List RlpItem) (restEnc : List Nat) :
      IsRlpEnc i enc → IsRlpEncList rest restEnc →
      IsRlpEncList (i :: rest) (enc ++ restEnc)

end

/-- Canonical-strict RLP parser, modelling the external go-ethereum rlp decoder
the repository delegates to: it parses a byte sequence into the consecutive
items it encodes, rejecting non-minimal length forms, a single-byte string
below 128 written with a header, and length bytes with a leading zero. The
fuel argument only forces termination; every recursive call strictly shrinks
the input, so any fuel above the input length is enough. -/
def parseRlpItems : Nat → List Nat → Except Err (List RlpItem)
  | 0, _ => .error .malformedRLP
  | _ + 1, [] => .ok []
  | fuel + 1, b :: rest =>
    if b < 128 then
      (parseRlpItems fuel rest).map (.bytes [b] :: ·)
    else if b < 184 then
      let len := b - 128
      if len ≤ rest.length then
        let bs := rest.take len
        if len = 1 ∧ bs.headD 0 < 128 then .error .malformedRLP
        else (parseRlpItems fuel (rest.drop len)).map (.bytes bs :: ·)
      else .error .malformedRLP
    else if b < 192 then
      let lenlen := b - 183
      if lenlen ≤ rest.length then
        let lenBytes := rest.take lenlen
        if lenBytes.headD 0 = 0 then .error .malformedRLP
        else
          let len := readBE lenBytes
          if len < 56 then .error .malformedRLP
          else
            let rest2 := rest.drop lenlen
            if len ≤ rest2.length then
              (parseRlpItems fuel (rest2.drop len)).map (.bytes (rest2.take len) :: ·)
            else .error .malformedRLP
      else .error .malformedRLP
    else if b < 248 then
      let len := b - 192
      if len ≤ rest.length then
        match parseRlpItems fuel (rest.take len) with
        | .ok items => (parseRlpItems fuel (rest.drop len)).map (.list items :: ·)
        | .error e => .error e
      else .error .malformedRLP
    else
      let lenlen := b - 247
      if lenlen ≤ rest.length then
        let lenBytes := rest.take lenlen
        if lenBytes.headD 0 = 0 then .error .malformedRLP
        else
          let len := readBE lenBytes
          if len < 56 then .error .malformedRLP
          else
            let rest2 := rest.drop lenlen
            if len ≤ rest2.length then
              match parseRlpItems fuel (rest2.take len) with
              | .ok items => (parseRlpItems fuel (rest2.drop len)).map (.list items :: ·)
              | .error e => .error e
            else .error .malformedRLP
      else .error .malformedRLP

/-- Decoding a byte string into a Go interface slice, as rlp.DecodeBytes does for
the trie node fields: the whole input must be exactly one canonical RLP list. -/
def rlpDecodeToList (src : List Nat) : Except Err (List RlpItem) :=
  match parseRlpItems (src.length + 1) src with
  | .ok [.list items] => .ok items
  | .ok _ => .error .malformedRLP
  | .error e => .error e

/-! Path compaction, from src/shared/utils.go. -/

/-- Whether a hex key carries the terminator nibble 16 in final position
(shared/utils.go hasTerm). -/
def hasTerm (s : List Nat) : Bool := s.getLast? == some 16

/-- Packs pairs of nibbles into bytes (shared/utils.go decodeNibbles); the callers
only pass even-length sequences. -/
def decodeNibbles : List Nat → List Nat
  | a :: b :: rest => ((a <<< 4) ||| b) :: decodeNibbles rest
  | _ => []

/-- Converts a hex nibble path to its compact (hex-prefix) byte form
(shared/utils.go hexToCompact). -/
def hexToCompact (hex : List Nat) : List Nat :=
  let terminator : Nat := if hasTerm hex then 1 else 0
  let hex := if hasTerm hex then hex.dropLast else hex
  if hex.length % 2 = 1 then
    ((terminator <<< 5) ||| (1 <<< 4) ||| hex.headD 0) :: decodeNibbles hex.tail
  else
    (terminator <<< 5) :: decodeNibbles hex

/-- Unpacks every byte into two nibbles and appends the terminator nibble 16
(shared/utils.go keybytesToHex). -/
def keybytesToHex (str : List Nat) : List Nat :=
  (str.flatMap fun b => [b / 16, b % 16]) ++ [16]

/-- Converts a compact (hex-prefix) byte form back to the hex nibble path
(shared/utils.go compactToHex). -/
def compactToHex (compact : List Nat) : List Nat :=
  if compact = [] then compact
  else
    let base := keybytesToHex compact
    let base := if base.headD 0 < 2 then base.dropLast else base
    let chop := 2 - (base.headD 0 &&& 1)
    base.drop chop

/-! Multicodec codes, from the external go-cid table the repository dispatches
on, plus the proposed log-trie code declared in src/trie/marshal.go. -/

/-- Multicodec code of raw content (cid.Raw). -/
def cidRaw : Nat := 0x55

/-- Multicodec code cid.EthTxTrie. -/
def cidEthTxTrie : Nat := 0x92

/-- Multicodec code cid.EthTxReceiptTrie. -/
def cidEthTxReceiptTrie : Nat := 0x94

/-- Multicodec code cid.EthStateTrie. -/
def cidEthStateTrie : Nat := 0x96

/-- Multicodec code cid.EthStorageTrie. -/
def cidEthStorageTrie : Nat := 0x98

/-- Proposed log-trie multicodec code (src/trie/marshal.go). -/
def logTrieMulticodec : Nat := 0x99

/-- Content-addressed reference: a multicodec tag together with a Keccak-256
digest. The CID/multihash wrapper of the Go code is abstracted to the pair that
survives a build-then-read round trip (shared/utils.go Keccak256ToCid wraps a
digest; multihash.Decode(...).Digest extracts it back). -/
structure Ref where
  codec : Nat
  digest : List Nat
deriving DecidableEq, Repr

/-- Builds a reference from a codec tag and a digest (shared/utils.go
Keccak256ToCid, with the multihash layer abstracted away). -/
def Keccak256ToCid (codec : Nat) (h : List Nat) : Ref := ⟨codec, h⟩

/-- Fixed-width right-aligned byte setter used by the external go-ethereum
common.BytesToHash (width 32), common.BytesToAddress (width 20), and
types.BytesToBloom (width 256): longer inputs keep their last bytes, shorter
inputs are left-padded with zeros. -/
def setBytesFixed (width : Nat) (b : List Nat) : List Nat :=
  let b := if width < b.length then b.drop (b.length - width) else b
  List.replicate (width - b.length) 0 ++ b

/-! Canonical field readers of the external go-ethereum rlp decoder. -/

/-- Reads a canonical RLP unsigned 64-bit integer: at most 8 bytes, no leading
zero byte, empty means zero. -/
def rlpReadUint64 (bs : List Nat) : Except Err Nat :=
  if 8 < bs.length then .error .malformedRLP
  else if bs.headD 1 = 0 then .error .malformedRLP
  else .ok (readBE bs)

/-- Reads a canonical RLP unsigned big integer: no leading zero byte, empty
means zero. -/
def rlpReadBig (bs : List Nat) : Except Err Nat :=
  if bs.headD 1 = 0 then .error .malformedRLP else .ok (readBE bs)

/-- Reads a 32-byte hash field, which must be exactly 32 bytes. -/
def rlpReadHash (bs : List Nat) : Except Err (List Nat) :=
  if bs.length = 32 then .ok bs else .error .malformedRLP

/-- Reads a 20-byte address field, which must be exactly 20 bytes. -/
def rlpReadAddress (bs : List Nat) : Except Err (List Nat) :=
  if bs.length = 20 then .ok bs else .error .malformedRLP

/-! State account codec. Decode side from src/unnamed/part_003 (package
dageth_account); encode side from src/state_account/marshal.go. -/

/-- Consensus-side account value (the external go-ethereum state.Account struct:
nonce, balance, storage root hash, code hash). -/
structure GoAccount where
  nonce : Nat
  balance : Nat
  root : List Nat
  codeHash : List Nat
deriving DecidableEq, Repr

/-- Parses the account consensus RLP (a fixed 4-field list: nonce uint64,
balance big integer, 32-byte root, code hash bytes), as rlp.DecodeBytes into
state.Account does in src/unnamed/part_003 DecodeBytes. -/
def accountUnmarshal (src : List Nat) : Except Err GoAccount := do
  let items ← rlpDecodeToList src
  match items with
  | [.bytes nB, .bytes bB, .bytes rB, .bytes cB] => do
    let nonce ← rlpReadUint64 nB
    let balance ← rlpReadBig bB
    let root ← rlpReadHash rB
    .ok ⟨nonce, balance, root, cB⟩
  | _ => .error .malformedRLP

/-- Account graph node assembled by src/unnamed/part_003 DecodeAccount: an
8-byte nonce, a minimal-length balance, and two references. -/
structure AccountNode where
  nonce : List Nat
  balance : List Nat
  storageRootCID : Ref
  codeCID : Ref
deriving DecidableEq, Repr

/-- Builds the StorageRootCID reference from the account
(src/unnamed/part_003 unpackStorageRootCID): storage-trie codec over the
account root digest. -/
def unpackStorageRootCID (account : GoAccount) : Ref :=
  Keccak256ToCid cidEthStorageTrie account.root

/-- Builds the CodeCID reference from the account (src/unnamed/part_003
unpackCodeCID). Note that the source passes account.Root.Bytes(), not
account.CodeHash, to the multihash encoder. -/
def unpackCodeCID (account : GoAccount) : Ref :=
  Keccak256ToCid cidRaw account.root

/-- Unpacks a consensus account value into its graph node (src/unnamed/part_003
DecodeAccount with its unpack functions: 8-byte big-endian nonce, minimal
big-endian balance, storage-root and code references). -/
def DecodeAccount (account : GoAccount) : AccountNode :=
  { nonce := u64be account.nonce
    balance := beBytes account.balance
    storageRootCID := unpackStorageRootCID account
    codeCID := unpackCodeCID account }

/-- Account decode entry point (src/unnamed/part_003 DecodeBytes). -/
def accountDecodeBytes (src : List Nat) : Except Err AccountNode :=
  (accountUnmarshal src).map DecodeAccount

/-- Reads the nonce out of the account graph node
(src/state_account/marshal.go packNonce): binary.BigEndian.Uint64 panics when
fewer than 8 bytes are present and otherwise reads the first 8 bytes. -/
def packNonce (node : AccountNode) : Except Err Nat :=
  if node.nonce.length < 8 then .error .goPanic else .ok (readBE (node.nonce.take 8))

/-- Reads the balance out of the account graph node
(src/state_account/marshal.go packBalance, big.Int SetBytes). -/
def packBalance (node : AccountNode) : Nat := readBE node.balance

/-- Reads the storage root out of the account graph node
(src/state_account/marshal.go packStorageRootCID, common.BytesToHash of the
reference digest). -/
def packStorageRootCID (node : AccountNode) : List Nat :=
  setBytesFixed 32 node.storageRootCID.digest

/-- Reads the code hash out of the account graph node
(src/state_account/marshal.go packCodeCID: the raw reference digest). -/
def packCodeCID (node : AccountNode) : List Nat := node.codeCID.digest

/-- Account encode entry point (src/state_account/marshal.go AppendEncode):
packs the node into a state.Account and RLP-encodes its 4-field list. -/
def accountAppendEncode (node : AccountNode) : Except Err (List Nat) := do
  let nonce ← packNonce node
  .ok (encodeFieldsRLP [beBytes nonce, beBytes (packBalance node),
    packStorageRootCID node, packCodeCID node])

/-! Receipt codec. Decode side from src/rct/unmarshal.go; encode side from
src/rct/marshal.go. -/

/-- Consensus-side log value (the external go-ethereum types.Log consensus
fields: 20-byte address, 32-byte topic hashes, data). -/
structure GoLog where
  address : List Nat
  topics : List (List Nat)
  data : List Nat
deriving DecidableEq, Repr

/-- Consensus-side receipt value (the consensus fields of the external
go-ethereum types.Receipt: type byte, mutually exclusive post-state/status,
cumulative gas used, 256-byte bloom, logs). -/
structure GoReceipt where
  txType : Nat
  postState : List Nat
  status : Nat
  cumulativeGasUsed : Nat
  bloom : List Nat
  logs : List GoLog
deriving DecidableEq, Repr

/-- Parses one consensus log entry (a 3-field RLP list: address, topic list,
data), as the external go-ethereum rlp decoder does. -/
def parseGoLog : RlpItem → Except Err GoLog
  | .list [.bytes aB, .list tIs, .bytes dB] => do
    let address ← rlpReadAddress aB
    let topics ← tIs.mapM fun t =>
      match t with
      | .bytes tb => rlpReadHash tb
      | .list _ => Except.error Err.malformedRLP
    .ok ⟨address, topics, dB⟩
  | _ => .error .malformedRLP

/-- Fills the status or post-state of a receipt from the consensus
PostStateOrStatus bytes, as the external go-ethereum receipt decoder does:
the byte 0x01 is a successful status, empty is a failed status, exactly 32
bytes is a legacy post-state, anything else is an invalid receipt status. -/
def receiptSetStatus (postStateOrStatus : List Nat) (r : GoReceipt) : Except Err GoReceipt :=
  if postStateOrStatus = [1] then .ok { r with status := 1, postState := [] }
  else if postStateOrStatus = [] then .ok { r with status := 0, postState := [] }
  else if postStateOrStatus.length = 32 then .ok { r with postState := postStateOrStatus }
  else .error .invalidReceiptStatus

/-- Parses the 4-field consensus receipt list (PostStateOrStatus, cumulative gas
used, 256-byte bloom, logs) for the given type tag, as the external go-ethereum
receipt decoder does. -/
def parseReceiptFields (ty : Nat) (items : List RlpItem) : Except Err GoReceipt :=
  match items with
  | [.bytes psosB, .bytes cguB, .bytes bloomB, .list logIs] => do
    let cgu ← rlpReadUint64 cguB
    if bloomB.length = 256 then do
      let logs ← logIs.mapM parseGoLog
      receiptSetStatus psosB ⟨ty, [], 0, cgu, bloomB, logs⟩
    else .error .malformedRLP
  | _ => .error .malformedRLP

/-- Modelled from the spec: src/rct/unmarshal.go DecodeBytes delegates to the
external go-ethereum types.Receipt.UnmarshalBinary, which is not under src/;
per spec section 4.3 the consensus form is a typed envelope, with a first byte
above 0x7f meaning an untyped Legacy receipt and a leading type byte 0x01
(AccessList) or 0x02 (DynamicFee) followed by the RLP field list otherwise; any
other type byte fails. -/
def rctUnmarshalBinary (src : List Nat) : Except Err GoReceipt :=
  match src with
  | [] => .error .malformedRLP
  | b :: rest =>
    if 127 < b then do
      let items ← rlpDecodeToList src
      parseReceiptFields 0 items
    else if b = 1 ∨ b = 2 then do
      let items ← rlpDecodeToList rest
      parseReceiptFields b items
    else .error (.unknownTxType b)

/-- Log graph node (fields Address, Topics, Data assembled by
src/rct/unmarshal.go unpackLogs). -/
structure LogNode where
  address : List Nat
  topics : List (List Nat)
  data : List Nat
deriving DecidableEq, Repr

/-- Receipt graph node: the fields assembled by src/rct/unmarshal.go
(Type, nullable Status, nullable PostState, CumulativeGasUsed, Bloom, Logs). -/
structure RctNode where
  txType : List Nat
  status : Option (List Nat)
  postState : Option (List Nat)
  cumulativeGasUsed : List Nat
  bloom : List Nat
  logs : List LogNode
deriving DecidableEq, Repr

/-- Modelled from the spec: the byte form of a failed status in the graph
representation. The constant declaration is not under src/ (only its use in
src/rct/unmarshal.go is); per the numeric-width convention of spec section 4.3
a status is a big-endian fixed 8-byte value, which is also how the package
tests read it back (binary.BigEndian.Uint64). -/
def receiptStatusFailedRLP : List Nat := u64be 0

/-- Modelled from the spec: the byte form of a successful status in the graph
representation (see receiptStatusFailedRLP). -/
def receiptStatusSuccessfulRLP : List Nat := u64be 1

/-- Unpacks the mutually exclusive Status/PostState pair of a receipt
(src/rct/unmarshal.go unpackPostStateOrStatus): a non-empty post-state sets
PostState and nulls Status; otherwise a failed or successful status sets Status
and nulls PostState, and any other status value is an error. Returns the
(Status, PostState) assignments. -/
def unpackPostStateOrStatus (rct : GoReceipt) :
    Except Err (Option (List Nat) × Option (List Nat)) :=
  if 0 < rct.postState.length then .ok (none, some rct.postState)
  else if rct.status = 0 then .ok (some receiptStatusFailedRLP, none)
  else if rct.status = 1 then .ok (some receiptStatusSuccessfulRLP, none)
  else .error .unrecognizedReceiptStatus

/-- Unpacks a consensus receipt into its graph node (src/rct/unmarshal.go
DecodeReceipt with its unpack functions). -/
def DecodeReceipt (rct : GoReceipt) : Except Err RctNode := do
  let psos ← unpackPostStateOrStatus rct
  .ok { txType := [rct.txType]
        status := psos.1
        postState := psos.2
        cumulativeGasUsed := u64be rct.cumulativeGasUsed
        bloom := rct.bloom
        logs := rct.logs.map fun l => ⟨l.address, l.topics, l.data⟩ }

/-- Receipt decode entry point (src/rct/unmarshal.go DecodeBytes). -/
def rctDecodeBytes (src : List Nat) : Except Err RctNode :=
  rctUnmarshalBinary src >>= DecodeReceipt

/-- Value held by a field of the receipt graph node. -/
inductive RGVal where
  | bytes (bs : List Nat) : RGVal
  | null : RGVal
  | logs (ls : List LogNode) : RGVal
deriving Repr

/-- Field lookup on the receipt graph node, modelled from the spec data model
(section 3): the typed Receipt schema (generated code, not under src/) has the
fields the decoder assembles (Type, nullable Status, nullable PostState,
CumulativeGasUsed, Bloom, Logs); looking up any other key fails. -/
def rctLookupByString (node : RctNode) (key : String) : Except Err RGVal :=
  if key = "Type" then .ok (.bytes node.txType)
  else if key = "Status" then
    .ok (match node.status with | some s => .bytes s | none => .null)
  else if key = "PostState" then
    .ok (match node.postState with | some p => .bytes p | none => .null)
  else if key = "CumulativeGasUsed" then .ok (.bytes node.cumulativeGasUsed)
  else if key = "Bloom" then .ok (.bytes node.bloom)
  else if key = "Logs" then .ok (.logs node.logs)
  else .error (.missingField key)

/-- Reads the single type byte of a receipt graph node (src/shared/utils.go
GetTxType: the Type field must be exactly one byte). -/
def GetTxType (node : RctNode) : Except Err Nat := do
  match ← rctLookupByString node "Type" with
  | .bytes tyBytes =>
    if tyBytes.length = 1 then .ok (tyBytes.headD 0) else .error .wrongFieldKind
  | _ => .error .wrongFieldKind

/-- Reads the PostStateOrStatus field of a receipt graph node
(src/rct/marshal.go packPostStateOrStatus); the node assembled by the decoder
has a Status/PostState pair instead, so this lookup fails. -/
def packPostStateOrStatus (node : RctNode) : Except Err (List Nat) := do
  match ← rctLookupByString node "PostStateOrStatus" with
  | .bytes b => .ok b
  | _ => .error .wrongFieldKind

/-- Reads the cumulative gas used of a receipt graph node (src/rct/marshal.go
packCumulativeGasUsed): binary.BigEndian.Uint64 panics when fewer than 8 bytes
are present and otherwise reads the first 8 bytes. -/
def packCumulativeGasUsed (node : RctNode) : Except Err Nat := do
  match ← rctLookupByString node "CumulativeGasUsed" with
  | .bytes cguBytes =>
    if cguBytes.length < 8 then .error .goPanic else .ok (readBE (cguBytes.take 8))
  | _ => .error .wrongFieldKind

/-- Reads the bloom of a receipt graph node (src/rct/marshal.go packBloom,
types.BytesToBloom): more than 256 bytes panics, otherwise the bytes are
right-aligned into 256. -/
def packBloom (node : RctNode) : Except Err (List Nat) := do
  match ← rctLookupByString node "Bloom" with
  | .bytes bloomBytes =>
    if 256 < bloomBytes.length then .error .goPanic
    else .ok (setBytesFixed 256 bloomBytes)
  | _ => .error .wrongFieldKind

/-- Reads the logs of a receipt graph node (src/rct/marshal.go packLogs):
addresses are right-aligned into 20 bytes and topics into 32 bytes. -/
def packLogs (node : RctNode) : Except Err (List GoLog) := do
  match ← rctLookupByString node "Logs" with
  | .logs ls =>
    .ok (ls.map fun l =>
      ⟨setBytesFixed 20 l.address, l.topics.map (setBytesFixed 32), l.data⟩)
  | _ => .error .wrongFieldKind

/-- Consensus RLP encoding of a log (the external go-ethereum rlp encoding of
the types.Log consensus fields: address, topic list, data). -/
def goLogEncode (l : GoLog) : List Nat :=
  encodeListPayload (encodeBytes l.address
    ++ encodeListPayload (l.topics.map encodeBytes).flatten
    ++ encodeBytes l.data)

/-- Typed-envelope emission of src/rct/marshal.go AppendEncode: the final
switch handles only the Legacy type (0, no prefix) and the AccessList type
(1, a single prefix byte); every other type byte is an error. -/
def rctEnvelope (txType : Nat) (payload : List Nat) : Except Err (List Nat) :=
  if txType = 0 then .ok payload
  else if txType = 1 then .ok (txType :: payload)
  else .error (.unrecognizedTxType txType)

/-- Receipt encode entry point (src/rct/marshal.go AppendEncode): reads the
type byte, packs the receiptRLP struct fields, RLP-encodes them and applies the
typed envelope. -/
def rctAppendEncode (node : RctNode) : Except Err (List Nat) := do
  let txType ← GetTxType node
  let psos ← packPostStateOrStatus node
  let cgu ← packCumulativeGasUsed node
  let bloom ← packBloom node
  let logs ← packLogs node
  let payload := encodeListPayload (encodeBytes psos ++ encodeBytes (beBytes cgu)
    ++ encodeBytes bloom ++ encodeListPayload (logs.map goLogEncode).flatten)
  rctEnvelope txType payload

/-! Transaction and log value transcoders, as dispatched to by the trie
codec. -/

/-- Transaction graph value: the envelope type together with the RLP bytes of
its consensus field list. -/
structure TxNode where
  txType : Nat
  body : List Nat
deriving DecidableEq, Repr

/-- Modelled from the spec: the transaction transcoder decode
(src/unnamed/part_008 delegates to the external go-ethereum
types.Transaction.UnmarshalBinary, not under src/); per spec section 4.3 a
single leading type byte (absent for Legacy, 0x01 AccessList, 0x02 DynamicFee)
precedes an RLP list of the variant's fields in fixed order (9, 11 and 12
fields respectively), and any other leading type byte fails. -/
def txDecodeBytes (src : List Nat) : Except Err TxNode :=
  match src with
  | [] => .error .malformedRLP
  | b :: rest =>
    if 127 < b then do
      let items ← rlpDecodeToList src
      if items.length = 9 then .ok ⟨0, src⟩ else .error .malformedRLP
    else if b = 1 then do
      let items ← rlpDecodeToList rest
      if items.length = 11 then .ok ⟨1, rest⟩ else .error .malformedRLP
    else if b = 2 then do
      let items ← rlpDecodeToList rest
      if items.length = 12 then .ok ⟨2, rest⟩ else .error .malformedRLP
    else .error (.unknownTxType b)

/-- Modelled from the spec: the transaction transcoder encode (inverse
envelope emission over the consensus field-list bytes, spec section 4.3). -/
def txAppendEncode (t : TxNode) : Except Err (List Nat) :=
  if t.txType = 0 then .ok t.body
  else .ok (t.txType :: t.body)

/-- Modelled from the spec: the log transcoder decode (the log package decode
used by src/trie/marshal.go is not under src/); per spec section 4.3 a log is a
fixed 3-field RLP list (address, topic list, data). -/
def logDecodeBytes (src : List Nat) : Except Err LogNode := do
  let items ← rlpDecodeToList src
  (parseGoLog (.list items)).map fun l => ⟨l.address, l.topics, l.data⟩

/-- Log encode (src/unnamed/part_014 AppendEncode): packs the graph node into a
types.Log (20-byte address, 32-byte topics) and RLP-encodes it. -/
def logAppendEncode (l : LogNode) : Except Err (List Nat) :=
  .ok (encodeListPayload (encodeBytes (setBytesFixed 20 l.address)
    ++ encodeListPayload (l.topics.map fun t => encodeBytes (setBytesFixed 32 t)).flatten
    ++ encodeBytes l.data))

/-! Trie node codec. Decode side from src/trie/marshal.go (DecodeTrieNodeBytes
and its helpers); encode side from src/unnamed/part_004 (AppendEncode and its
helpers, the version that compacts partial paths with HexToCompact). -/

/-- Trie value union, keyed by the externally supplied content domain
(the Value union of the trie schema: Transaction, Receipt, Account, storage
Bytes, Log). -/
inductive TrieValue where
  | tx (t : TxNode) : TrieValue
  | rct (r : RctNode) : TrieValue
  | state (a : AccountNode) : TrieValue
  | storage (bs : List Nat) : TrieValue
  | log (l : LogNode) : TrieValue

mutual

/-- Trie node union (branch with 16 nullable child slots and a nullable value,
extension with partial path and child, leaf with partial path and value). -/
inductive TrieNode where
  | branch (children : List Child) (value : Option TrieValue) : TrieNode
  | extension (partialPath : List Nat) (child : Child) : TrieNode
  | leaf (partialPath : List Nat) (value : TrieValue) : TrieNode

/-- Child slot union: null (empty slot), a reference link, or a directly
included trie node. -/
inductive Child where
  | null : Child
  | link (ref : Ref) : Child
  | inline (node : TrieNode) : Child

end

/-- Trie node kinds (src/trie/marshal.go NodeKind). -/
inductive NodeKind where
  | branch : NodeKind
  | extension : NodeKind
  | leaf : NodeKind
  | unknown : NodeKind
deriving DecidableEq, Repr

/-- Dispatches a value payload to the entity transcoder selected by the
caller-supplied multicodec (src/trie/marshal.go unpackValue). -/
def unpackValue (val : List Nat) (codec : Nat) : Except Err TrieValue :=
  if codec = cidEthTxTrie then (txDecodeBytes val).map .tx
  else if codec = cidEthTxReceiptTrie then (rctDecodeBytes val).map .rct
  else if codec = cidEthStateTrie then (accountDecodeBytes val).map .state
  else if codec = cidEthStorageTrie then .ok (.storage val)
  else if codec = logTrieMulticodec then (logDecodeBytes val).map .log
  else .error (.unsupportedCodec codec)

/-- Classifies a two-member node and decompacts its partial path
(src/trie/marshal.go decodeTwoMemberNode). The source asserts the first member
to a byte slice and indexes its first byte without any check, so a nested-list
or empty first member crashes (goPanic) instead of returning an error; the
top nibble of the first byte then selects extension (0 or 1), leaf (2 or 3) or
the unknown-hex-prefix error. -/
def decodeTwoMemberNode (i : List RlpItem) : Except Err (NodeKind × List RlpItem) :=
  match i with
  | i0 :: i1 :: _ =>
    match i0 with
    | .list _ => .error .goPanic
    | .bytes first =>
      let decodedNode := [RlpItem.bytes (compactToHex first), i1]
      match first with
      | [] => .error .goPanic
      | f0 :: _ =>
        if f0 / 16 = 0 ∨ f0 / 16 = 1 then .ok (.extension, decodedNode)
        else if f0 / 16 = 2 ∨ f0 / 16 = 3 then .ok (.leaf, decodedNode)
        else .error .unknownHexPrefix
  | _ => .error .goPanic

/-- Unpacks a decoded two-member node as an extension
(src/trie/marshal.go unpackExtensionNode): the first member must be a byte
slice (the already-decompacted partial path) and the second member must assert
to a byte slice, which is wrapped as the child reference with no length
check. -/
def unpackExtensionNode (nodeFields : List RlpItem) (codec : Nat) : Except Err TrieNode :=
  match nodeFields with
  | f0 :: f1 :: _ =>
    match f0 with
    | .list _ => .error .extensionPathAssert
    | .bytes partialPath =>
      match f1 with
      | .list _ => .error .extensionChildAssert
      | .bytes childLink => .ok (.extension partialPath (.link (Keccak256ToCid codec childLink)))
  | _ => .error .goPanic

/-- Unpacks a decoded two-member node as a leaf (src/trie/marshal.go
unpackLeafNode): both members must be byte slices; the second is delegated to
the entity transcoder for the codec. -/
def unpackLeafNode (nodeFields : List RlpItem) (codec : Nat) : Except Err TrieNode :=
  match nodeFields with
  | f0 :: f1 :: _ =>
    match f0 with
    | .list _ => .error .leafPathAssert
    | .bytes partialPath =>
      match f1 with
      | .list _ => .error .leafValueAssert
      | .bytes valBytes => (unpackValue valBytes codec).map (.leaf partialPath)
  | _ => .error .goPanic

/-- Unpacks one branch child slot (the body of the loop in
src/trie/marshal.go unpackBranchNode): an empty byte slice is a null slot,
exactly 32 bytes is a reference, any other byte length is an error; a
nested value must be a 2-member list that classifies as a leaf, which is
included directly. -/
def unpackBranchChild (item : RlpItem) (codec : Nat) : Except Err Child :=
  match item with
  | .bytes childLink =>
    if childLink.length = 0 then .ok .null
    else if childLink.length = 32 then .ok (.link (Keccak256ToCid codec childLink))
    else .error (.branchChildLength childLink.length)
  | .list childLeaf =>
    if childLeaf.length ≠ 2 then .error (.inlineEntryCount childLeaf.length)
    else
      match decodeTwoMemberNode childLeaf with
      | .error e => .error e
      | .ok (nodeKind, decodedChildLeaf) =>
        if nodeKind ≠ .leaf then .error .inlineNotLeaf
        else (unpackLeafNode decodedChildLeaf codec).map .inline

/-- Unpacks a 17-member node as a branch (src/trie/marshal.go
unpackBranchNode): the 16 child slots, then the 17th member, which must be a
byte slice, empty for a null value and otherwise delegated to the entity
transcoder. -/
def unpackBranchNode (nodeFields : List RlpItem) (codec : Nat) : Except Err TrieNode := do
  let children ← (nodeFields.take 16).mapM (unpackBranchChild · codec)
  match nodeFields.drop 16 with
  | .bytes valBytes :: _ =>
    if valBytes.length = 0 then .ok (.branch children none)
    else (unpackValue valBytes codec).map fun v => .branch children (some v)
  | .list _ :: _ => .error .branchValueAssert
  | [] => .error .goPanic

/-- Trie node decode entry point (src/trie/marshal.go DecodeTrieNodeBytes):
RLP-decodes the outer bytes into a field list and switches on its length.
The length switch in the source has no default case; for any length other than
2 or 17 nothing is assembled and the outcome is decided by the typed keyed-union
assembler (generated schema code, not under src/). Modelled from the spec:
decode fails with UnexpectedShape if the list length is neither 2 nor 17
(spec section 4.1; the keyed union cannot finish with no member assembled). -/
def DecodeTrieNodeBytes (src : List Nat) (codec : Nat) : Except Err TrieNode := do
  let nodeFields ← rlpDecodeToList src
  if nodeFields.length = 2 then
    match decodeTwoMemberNode nodeFields with
    | .error e => .error e
    | .ok (nodeKind, decoded) =>
      match nodeKind with
      | .extension => unpackExtensionNode decoded codec
      | .leaf => unpackLeafNode decoded codec
      | _ => .error .unrecognizedNodeType
  else if nodeFields.length = 17 then
    unpackBranchNode nodeFields codec
  else
    .error .unexpectedShape

/-- Serializes a trie value through the entity transcoder of its variant
(src/unnamed/part_004 packValue). -/
def packValue : TrieValue → Except Err (List Nat)
  | .tx t => txAppendEncode t
  | .rct r => rctAppendEncode r
  | .state a => accountAppendEncode a
  | .storage bs => .ok bs
  | .log l => logAppendEncode l

/-- Builds the two members of a leaf node, each a byte slice
(src/unnamed/part_004 packLeafNode): the compacted partial path and the
transcoded value bytes. -/
def packLeafNode (pp : List Nat) (v : TrieValue) : Except Err (List (List Nat)) :=
  (packValue v).map fun valueBytes => [hexToCompact pp, valueBytes]

/-- Builds the two members of an extension node (src/unnamed/part_004
packExtensionNode): the compacted partial path and the child link digest; the
child must be a link. -/
def packExtensionNode (pp : List Nat) (child : Child) : Except Err (List (List Nat)) :=
  match child with
  | .link ref => .ok [hexToCompact pp, ref.digest]
  | _ => .error .wrongFieldKind

/-- Packs one branch child slot into its byte-slice member (the loop body of
src/unnamed/part_004 packBranchNode): null becomes an empty byte string, a
link contributes its raw digest, and a directly included node must be a
leaf, whose own 2-member form is RLP-encoded into the slot. -/
def packBranchChild (child : Child) : Except Err (List Nat) :=
  match child with
  | .null => .ok []
  | .link ref => .ok ref.digest
  | .inline (.leaf pp v) =>
    (packLeafNode pp v).map fun childLeafNodeFields => encodeFieldsRLP childLeafNodeFields
  | .inline _ => .error .inlineNotLeaf

/-- Builds the 17 members of a branch node (src/unnamed/part_004
packBranchNode): the 16 packed child slots and the value bytes (empty when the
value is null). -/
def packBranchNode (children : List Child) (value : Option TrieValue) :
    Except Err (List (List Nat)) := do
  if children.length ≠ 16 then .error .incompleteNode
  else
    let packed ← children.mapM packBranchChild
    match value with
    | none => .ok (packed ++ [[]])
    | some v => (packValue v).map fun valueBytes => packed ++ [valueBytes]

/-- Trie node encode entry point (src/unnamed/part_004 AppendEncode): selects
the union variant, packs its members (a field list whose entries are all byte
slices) and RLP-encodes that field list. -/
def AppendEncode (node : TrieNode) : Except Err (List Nat) := do
  let nodeFields ←
    match node with
    | .branch children value => packBranchNode children value
    | .extension pp child => packExtensionNode pp child
    | .leaf pp value => packLeafNode pp value
  .ok (encodeFieldsRLP nodeFields)

/-! Concrete inputs used by the claim theorems. -/

/-- A 32-byte storage-root digest. -/
def mockRoot : List Nat := List.replicate 32 0xaa

/-- A 32-byte code hash, distinct from mockRoot. -/
def mockCodeHash : List Nat := List.replicate 32 0xbb

/-- A consensus account with nonce 1, balance 15, root mockRoot and code hash
mockCodeHash. -/
def mockGoAccount : GoAccount := ⟨1, 15, mockRoot, mockCodeHash⟩

/-- Canonical consensus RLP of mockGoAccount. -/
def mockAccountRLP : List Nat :=
  encodeFieldsRLP [[1], [15], mockRoot, mockCodeHash]

/-- Canonical consensus RLP of a state-trie leaf node holding mockGoAccount,
with the compact leaf path 0x20 (even-length empty path with terminator). -/
def mockStateLeafRLP : List Nat :=
  encodeFieldsRLP [[0x20], mockAccountRLP]

/-- The graph node produced by decoding mockStateLeafRLP under the state-trie
domain. -/
def mockStateLeafNode : TrieNode :=
  .leaf [16] (.state
    { nonce := u64be 1
      balance := [15]
      storageRootCID := ⟨cidEthStorageTrie, mockRoot⟩
      codeCID := ⟨cidRaw, mockRoot⟩ })

/-- The bytes produced by re-encoding mockStateLeafNode: the code-hash slot
now carries mockRoot instead of mockCodeHash. -/
def mockStateLeafReEncoded : List Nat :=
  encodeFieldsRLP [[0x20], encodeFieldsRLP [[1], [15], mockRoot, mockRoot]]

/-- Canonical consensus encoding of a DynamicFee receipt (type 0x02, successful
status, cumulative gas used 1, empty bloom, no logs). -/
def dfReceiptEnc : List Nat :=
  2 :: encodeListPayload (encodeBytes [1] ++ encodeBytes [1]
    ++ encodeBytes (List.replicate 256 0) ++ encodeListPayload [])

/-- The graph node produced by decoding dfReceiptEnc. -/
def dfReceiptNode : RctNode :=
  { txType := [2]
    status := some receiptStatusSuccessfulRLP
    postState := none
    cumulativeGasUsed := u64be 1
    bloom := List.replicate 256 0
    logs := [] }

/-- Canonical RLP of a 17-member branch node whose slot 0 holds the nested
2-member list of two empty byte strings (all other slots and the value empty). -/
def crashBranchRLP : List Nat :=
  encodeListPayload (encodeListPayload (encodeBytes [] ++ encodeBytes [])
    ++ (List.replicate 16 (encodeBytes ([] : List Nat))).flatten)

/-- Canonical RLP of a 2-member extension node whose second member is a 2-byte
string (not a 32-byte digest). -/
def shortExtensionRLP : List Nat :=
  encodeFieldsRLP [[0x11], [0xab, 0xcd]]

/-- Canonical RLP of a well-formed 2-member extension node with a 32-byte child
digest. -/
def extWitnessRLP : List Nat :=
  encodeFieldsRLP [[0x11], List.replicate 32 0xcc]

/-- Canonical RLP of a 2-member list whose first member is an empty byte
string. -/
def emptyFirstRLP : List Nat := encodeFieldsRLP [[], []]

/-- Canonical RLP of a 2-member list whose first member is itself a list. -/
def listFirstRLP : List Nat :=
  encodeListPayload (encodeListPayload [] ++ encodeBytes [])

/-! Helper lemmas about nibble packing. -/

theorem nib_pack (a b : Nat) (ha : a < 16) (hb : b < 16) : (a <<< 4) ||| b = a * 16 + b := by
  have h : ∀ a, a < 16 → ∀ b, b < 16 → (a <<< 4) ||| b = a * 16 + b := by decide
  exact h a ha b hb

theorem oddFlagByte_div16 (t h : Nat) (ht : t < 2) (hh : h < 16) :
    ((t <<< 5) ||| (1 <<< 4) ||| h) / 16 = 2 * t + 1 := by
  have hl : ∀ t, t < 2 → ∀ h, h < 16 → ((t <<< 5) ||| (1 <<< 4) ||| h) / 16 = 2 * t + 1 := by
    decide
  exact hl t ht h hh

theorem oddFlagByte_mod16 (t h : Nat) (ht : t < 2) (hh : h < 16) :
    ((t <<< 5) ||| (1 <<< 4) ||| h) % 16 = h := by
  have hl : ∀ t, t < 2 → ∀ h, h < 16 → ((t <<< 5) ||| (1 <<< 4) ||| h) % 16 = h := by decide
  exact hl t ht h hh

theorem unpack_decodeNibbles :
    ∀ (k : Nat) (l : List Nat), l.length ≤ k → (∀ x ∈ l, x < 16) → l.length % 2 = 0 →
      (decodeNibbles l).flatMap (fun b => [b / 16, b % 16]) = l := by
  intro k
  induction k with
  | zero =>
    intro l hl _ _
    have : l = [] := by
      cases l with
      | nil => rfl
      | cons a r => simp at hl
    subst this
    simp [decodeNibbles]
  | succ k ih =>
    intro l hl h he
    match l with
    | [] => simp [decodeNibbles]
    | [a] => simp at he
    | a :: b :: rest =>
      have ha : a < 16 := h a (by simp)
      have hb : b < 16 := h b (by simp)
      have hrest : (decodeNibbles rest).flatMap (fun b => [b / 16, b % 16]) = rest := by
        refine ih rest ?_ ?_ ?_
        · simp at hl; omega
        · intro x hx; exact h x (by simp [hx])
        · simp only [List.length_cons] at he; omega
      have hpack : (a <<< 4) ||| b = a * 16 + b := nib_pack a b ha hb
      have hdiv : (a * 16 + b) / 16 = a := by omega
      have hmod : (a * 16 + b) % 16 = b := by omega
      simp [decodeNibbles, hpack, hdiv, hmod, hrest]


theorem core0odd (h : Nat) (hh : h < 16) (m2 : List Nat)
    (hunpack : (decodeNibbles m2).flatMap (fun b => [b / 16, b % 16]) = m2) :
    compactToHex (((0 : Nat) <<< 5 ||| 1 <<< 4 ||| h) :: decodeNibbles m2) = h :: m2 := by
  have hf : ((0 : Nat) <<< 5 ||| 1 <<< 4 ||| h) = 16 + h := by
    have h16 : ∀ h, h < 16 → ((0 : Nat) <<< 5 ||| 1 <<< 4 ||| h) = 16 + h := by decide
    exact h16 h hh
  have hdiv : (16 + h) / 16 = 1 := by omega
  have hmod : (16 + h) % 16 = h := by omega
  rw [hf]
  simp [compactToHex, keybytesToHex, hdiv, hmod, hunpack]
  rw [show h :: (m2 ++ [16]) = (h :: m2) ++ [16] by simp, List.dropLast_concat]

theorem core1odd (h : Nat) (hh : h < 16) (m2 : List Nat)
    (hunpack : (decodeNibbles m2).flatMap (fun b => [b / 16, b % 16]) = m2) :
    compactToHex (((1 : Nat) <<< 5 ||| 1 <<< 4 ||| h) :: decodeNibbles m2) = h :: m2 ++ [16] := by
  have hf : ((1 : Nat) <<< 5 ||| 1 <<< 4 ||| h) = 48 + h := by
    have h48 : ∀ h, h < 16 → ((1 : Nat) <<< 5 ||| 1 <<< 4 ||| h) = 48 + h := by decide
    exact h48 h hh
  have hdiv : (48 + h) / 16 = 3 := by omega
  have hmod : (48 + h) % 16 = h := by omega
  rw [hf]
  simp [compactToHex, keybytesToHex, hdiv, hmod, hunpack]

theorem core0even (m : List Nat)
    (hunpack : (decodeNibbles m).flatMap (fun b => [b / 16, b % 16]) = m) :
    compactToHex (((0 : Nat) <<< 5) :: decodeNibbles m) = m := by
  simp [compactToHex, keybytesToHex, hunpack]
  rw [show (0 : Nat) :: (m ++ [16]) = (0 :: m) ++ [16] by simp, List.dropLast_concat,
    List.tail_cons]

theorem core1even (m : List Nat)
    (hunpack : (decodeNibbles m).flatMap (fun b => [b / 16, b % 16]) = m) :
    compactToHex (((1 : Nat) <<< 5) :: decodeNibbles m) = m ++ [16] := by
  simp [compactToHex, keybytesToHex, hunpack]

/-- Claim C2: for every nibble sequence whose elements are in the closed
interval from 0 to 16 and in which the terminator value 16, if present, occurs
only as the final element, decompacting the compact hex-prefix encoding of the
sequence yields the sequence again: compactToHex (hexToCompact n) = n. -/
theorem compactToHex_hexToCompact (n : List Nat)
    (hle : ∀ x ∈ n, x ≤ 16)
    (hterm : ∀ (i : Nat) (h : i < n.length), n[i] = 16 → i + 1 = n.length) :
    compactToHex (hexToCompact n) = n := by
  by_cases hT : hasTerm n
  · -- n carries the terminator: n = m ++ [16] with every nibble of m below 16
    have hlast : n.getLast? = some 16 := by rwa [hasTerm, beq_iff_eq] at hT
    have hne : n ≠ [] := by
      intro hnil; rw [hnil] at hlast; simp at hlast
    obtain ⟨m, rfl⟩ : ∃ m, n = m ++ [16] := by
      refine ⟨n.dropLast, ?_⟩
      have hgl : n.getLast hne = 16 := by
        have h2 := List.getLast?_eq_getLast n hne
        rw [h2] at hlast
        exact (Option.some.inj hlast).symm ▸ rfl
      conv_lhs => rw [← List.dropLast_append_getLast hne]
      rw [hgl]
    have hm : ∀ x ∈ m, x < 16 := by
      intro x hx
      have hxle : x ≤ 16 := hle x (by simp [hx])
      rcases Nat.lt_or_ge x 16 with hlt | hge
      · exact hlt
      · exfalso
        have hx16 : x = 16 := le_antisymm hxle hge
        subst hx16
        obtain ⟨i, hi, hgi⟩ := List.getElem_of_mem hx
        have hi2 : i < (m ++ [16]).length := by simp; omega
        have hval : (m ++ [16])[i] = 16 := by
          rw [List.getElem_append_left hi]; exact hgi
        have := hterm i hi2 hval
        simp at this
        omega
    have hstep : hexToCompact (m ++ [16]) =
        (if m.length % 2 = 1 then
          ((1 <<< 5) ||| (1 <<< 4) ||| m.headD 0) :: decodeNibbles m.tail
        else (1 <<< 5) :: decodeNibbles m) := by
      simp [hexToCompact, hT, List.dropLast_concat]
    rw [hstep]
    by_cases hodd : m.length % 2 = 1
    · cases m with
      | nil => simp at hodd
      | cons h m2 =>
        have hm2 : ∀ x ∈ m2, x < 16 := fun x hx => hm x (by simp [hx])
        have he : m2.length % 2 = 0 := by simp only [List.length_cons] at hodd; omega
        simp only [if_pos hodd, List.headD_cons, List.tail_cons]
        simpa using core1odd h (hm h (by simp)) m2
          (unpack_decodeNibbles m2.length m2 le_rfl hm2 he)
    · have he : m.length % 2 = 0 := by omega
      simp only [if_neg hodd]
      exact core1even m (unpack_decodeNibbles m.length m le_rfl hm he)
  · -- no terminator: every nibble of n is below 16
    have hm : ∀ x ∈ n, x < 16 := by
      intro x hx
      have hxle : x ≤ 16 := hle x hx
      rcases Nat.lt_or_ge x 16 with hlt | hge
      · exact hlt
      · exfalso
        have hx16 : x = 16 := le_antisymm hxle hge
        subst hx16
        obtain ⟨i, hi, hgi⟩ := List.getElem_of_mem hx
        have hlen := hterm i hi hgi
        have hlast : n.getLast? = some 16 := by
          rw [List.getLast?_eq_getElem?]
          have hieq : i = n.length - 1 := by omega
          subst hieq
          rw [List.getElem?_eq_getElem hi, hgi]
        exact hT (by rw [hasTerm, beq_iff_eq]; exact hlast)
    have hstep : hexToCompact n =
        (if n.length % 2 = 1 then
          ((0 <<< 5) ||| (1 <<< 4) ||| n.headD 0) :: decodeNibbles n.tail
        else (0 <<< 5) :: decodeNibbles n) := by
      simp [hexToCompact, hT]
    rw [hstep]
    by_cases hodd : n.length % 2 = 1
    · cases n with
      | nil => simp at hodd
      | cons h m2 =>
        have hm2 : ∀ x ∈ m2, x < 16 := fun x hx => hm x (by simp [hx])
        have he : m2.length % 2 = 0 := by simp only [List.length_cons] at hodd; omega
        simp only [if_pos hodd, List.headD_cons, List.tail_cons]
        exact core0odd h (hm h (by simp)) m2
          (unpack_decodeNibbles m2.length m2 le_rfl hm2 he)
    · have he : n.length % 2 = 0 := by omega
      simp only [if_neg hodd]
      exact core0even n (unpack_decodeNibbles n.length n le_rfl hm he)

/-- Witness for claim C2 at the concrete nibble sequence 1, 2, terminator. -/
theorem compactToHex_hexToCompact_witness :
    compactToHex (hexToCompact [1, 2, 16]) = [1, 2, 16] :=
  compactToHex_hexToCompact [1, 2, 16] (by decide) (by decide)

theorem beBytesAux_congr : ∀ (f1 f2 n : Nat), n ≤ f1 → n ≤ f2 →
    beBytesAux f1 n = beBytesAux f2 n := by
  intro f1
  induction f1 with
  | zero =>
    intro f2 n h1 _
    have : n = 0 := by omega
    subst this
    cases f2 with
    | zero => rfl
    | succ f2 => simp [beBytesAux]
  | succ f1 ih =>
    intro f2 n h1 h2
    cases f2 with
    | zero =>
      have : n = 0 := by omega
      subst this
      simp [beBytesAux]
    | succ f2 =>
      by_cases hn : n = 0
      · subst hn; simp [beBytesAux]
      · simp only [beBytesAux, if_neg hn]
        have hdiv : n / 256 < n := Nat.div_lt_self (by omega) (by omega)
        rw [ih f2 (n / 256) (by omega) (by omega)]

theorem beBytes_eq (n : Nat) :
    beBytes n = if n = 0 then [] else beBytes (n / 256) ++ [n % 256] := by
  by_cases hn : n = 0
  · subst hn; simp [beBytes, beBytesAux]
  · rw [if_neg hn]
    show beBytesAux n n = _
    cases n with
    | zero => exact absurd rfl hn
    | succ m =>
      simp only [beBytesAux, if_neg hn]
      have hdiv : (m + 1) / 256 < m + 1 := Nat.div_lt_self (by omega) (by omega)
      rw [show beBytes ((m + 1) / 256) = beBytesAux ((m + 1) / 256) ((m + 1) / 256) from rfl,
        beBytesAux_congr m ((m + 1) / 256) ((m + 1) / 256) (by omega) le_rfl]

theorem readBE_append_singleton (l : List Nat) (d : Nat) :
    readBE (l ++ [d]) = readBE l * 256 + d := by
  simp [readBE, List.foldl_append]

theorem readBE_cons_ge (t : List Nat) : ∀ (acc : Nat),
    acc ≤ t.foldl (fun acc b => acc * 256 + b) acc := by
  induction t with
  | nil => intro acc; simp
  | cons b t ih =>
    intro acc
    have h1 : acc ≤ acc * 256 + b := by omega
    exact le_trans h1 (ih (acc * 256 + b))

theorem readBE_pos (l : List Nat) (hne : l ≠ []) (hh : l.headD 0 ≠ 0) : 0 < readBE l := by
  match l with
  | h :: t =>
    have : readBE (h :: t) = t.foldl (fun acc b => acc * 256 + b) h := by
      simp [readBE]
    rw [this]
    have := readBE_cons_ge t h
    simp at hh
    omega

theorem beBytes_readBE (l : List Nat) :
    l ≠ [] → l.headD 0 ≠ 0 → (∀ x ∈ l, x < 256) → beBytes (readBE l) = l := by
  induction l using List.reverseRecOn with
  | nil => intro h; exact absurd rfl h
  | append_singleton l2 d ih =>
    intro _ hh hm
    by_cases hl2 : l2 = []
    · subst hl2
      simp only [List.nil_append] at hh hm ⊢
      have hd : d < 256 := hm d (by simp)
      have hdne : d ≠ 0 := by simpa using hh
      rw [readBE, show List.foldl (fun acc b => acc * 256 + b) 0 [d] = d by simp]
      rw [beBytes_eq]
      rw [if_neg hdne]
      have h1 : d / 256 = 0 := by omega
      have h2 : d % 256 = d := by omega
      rw [h1, h2, beBytes_eq]
      simp
    · have hh2 : l2.headD 0 ≠ 0 := by
        cases l2 with
        | nil => exact absurd rfl hl2
        | cons a t => simpa using hh
      have hm2 : ∀ x ∈ l2, x < 256 := fun x hx => hm x (by simp [hx])
      have hd : d < 256 := hm d (by simp)
      have ihv := ih hl2 hh2 hm2
      rw [readBE_append_singleton]
      have hpos : 0 < readBE l2 := readBE_pos l2 hl2 hh2
      rw [beBytes_eq]
      have hne0 : readBE l2 * 256 + d ≠ 0 := by omega
      rw [if_neg hne0]
      have h1 : (readBE l2 * 256 + d) / 256 = readBE l2 := by omega
      have h2 : (readBE l2 * 256 + d) % 256 = d := by omega
      rw [h1, h2, ihv]

theorem encodeBytes_single (b : Nat) (hb : b < 128) : encodeBytes [b] = [b] := by
  simp [encodeBytes, hb]

theorem encodeBytes_short (bs : List Nat) (hlen : bs.length < 56)
    (hnc : ¬(bs.length = 1 ∧ bs.headD 0 < 128)) :
    encodeBytes bs = (128 + bs.length) :: bs := by
  rw [encodeBytes, if_neg hnc, encodeLength, if_pos hlen]
  rfl

theorem encodeBytes_long (bs : List Nat) (hlen : 56 ≤ bs.length) :
    encodeBytes bs = (183 + (beBytes bs.length).length) :: beBytes bs.length ++ bs := by
  have hnc : ¬(bs.length = 1 ∧ bs.headD 0 < 128) := by omega
  rw [encodeBytes, if_neg hnc, encodeLength, if_neg (by omega)]

theorem isRlpEncList_nil_inv (l : List Nat) (h : IsRlpEncList [] l) : l = [] := by
  cases h
  rfl

theorem parseRlpItems_sound : ∀ (fuel : Nat) (input : List Nat),
    (∀ x ∈ input, x < 256) →
    ∀ items, parseRlpItems fuel input = .ok items → IsRlpEncList items input := by
  intro fuel
  induction fuel with
  | zero => intro input _ items h; simp [parseRlpItems] at h
  | succ fuel ih =>
    intro input hbytes items hparse
    match input with
    | [] =>
      simp [parseRlpItems] at hparse
      subst hparse
      exact .nil
    | b :: rest =>
      have hbyte : b < 256 := hbytes b (by simp)
      have hrestbytes : ∀ x ∈ rest, x < 256 := fun x hx => hbytes x (by simp [hx])
      rw [parseRlpItems] at hparse
      by_cases hb1 : b < 128
      · rw [if_pos hb1] at hparse
        cases hrec : parseRlpItems fuel rest with
        | error e => rw [hrec] at hparse; simp [Except.map] at hparse
        | ok items2 =>
          rw [hrec] at hparse
          simp [Except.map] at hparse
          subst hparse
          have hIH := ih rest hrestbytes items2 hrec
          have henc : encodeBytes [b] = [b] := encodeBytes_single b hb1
          have hc := IsRlpEncList.cons (RlpItem.bytes [b]) (encodeBytes [b]) items2 rest
            (IsRlpEnc.bytes [b]) hIH
          rw [henc] at hc
          simpa using hc
      · rw [if_neg hb1] at hparse
        by_cases hb2 : b < 184
        · rw [if_pos hb2] at hparse
          by_cases hlen : b - 128 ≤ rest.length
          · rw [if_pos hlen] at hparse
            by_cases hcan : b - 128 = 1 ∧ (rest.take (b - 128)).headD 0 < 128
            · rw [if_pos hcan] at hparse; simp at hparse
            · rw [if_neg hcan] at hparse
              cases hrec : parseRlpItems fuel (rest.drop (b - 128)) with
              | error e => rw [hrec] at hparse; simp [Except.map] at hparse
              | ok items2 =>
                rw [hrec] at hparse
                simp [Except.map] at hparse
                subst hparse
                have hIH := ih (rest.drop (b - 128))
                  (fun x hx => hrestbytes x (List.mem_of_mem_drop hx)) items2 hrec
                have htlen : (rest.take (b - 128)).length = b - 128 := by
                  rw [List.length_take]; omega
                have henc : encodeBytes (rest.take (b - 128)) =
                    (128 + (b - 128)) :: rest.take (b - 128) := by
                  rw [encodeBytes_short _ (by rw [htlen]; omega)
                    (by rw [htlen]; exact hcan), htlen]
                have hb128 : 128 + (b - 128) = b := by omega
                rw [hb128] at henc
                have hc := IsRlpEncList.cons (RlpItem.bytes (rest.take (b - 128)))
                  (encodeBytes (rest.take (b - 128))) items2 (rest.drop (b - 128))
                  (IsRlpEnc.bytes _) hIH
                rw [henc] at hc
                have : (b :: rest.take (b - 128)) ++ rest.drop (b - 128) = b :: rest := by
                  simp [List.take_append_drop]
                rwa [this] at hc
          · rw [if_neg hlen] at hparse; simp at hparse
        · rw [if_neg hb2] at hparse
          by_cases hb3 : b < 192
          · rw [if_pos hb3] at hparse
            by_cases hll : b - 183 ≤ rest.length
            · rw [if_pos hll] at hparse
              by_cases hzero : (rest.take (b - 183)).headD 0 = 0
              · rw [if_pos hzero] at hparse; simp at hparse
              · rw [if_neg hzero] at hparse
                by_cases hsmall : readBE (rest.take (b - 183)) < 56
                · rw [if_pos hsmall] at hparse; simp at hparse
                · rw [if_neg hsmall] at hparse
                  by_cases hlen2 : readBE (rest.take (b - 183)) ≤ (rest.drop (b - 183)).length
                  · rw [if_pos hlen2] at hparse
                    set len := readBE (rest.take (b - 183)) with hlendef
                    set rest2 := rest.drop (b - 183) with hrest2def
                    cases hrec : parseRlpItems fuel (rest2.drop len) with
                    | error e => rw [hrec] at hparse; simp [Except.map] at hparse
                    | ok items2 =>
                      rw [hrec] at hparse
                      simp [Except.map] at hparse
                      subst hparse
                      have hr2bytes : ∀ x ∈ rest2, x < 256 :=
                        fun x hx => hrestbytes x (List.mem_of_mem_drop hx)
                      have hIH := ih (rest2.drop len)
                        (fun x hx => hr2bytes x (List.mem_of_mem_drop hx)) items2 hrec
                      have hlnonempty : rest.take (b - 183) ≠ [] := by
                        intro hnil
                        rw [hnil] at hzero
                        simp at hzero
                      have hlbytes : ∀ x ∈ rest.take (b - 183), x < 256 :=
                        fun x hx => hrestbytes x (List.mem_of_mem_take hx)
                      have hbe : beBytes len = rest.take (b - 183) :=
                        beBytes_readBE _ hlnonempty hzero hlbytes
                      have htlen2 : (rest2.take len).length = len := by
                        rw [List.length_take]; omega
                      have henc := encodeBytes_long (rest2.take len) (by rw [htlen2]; omega)
                      rw [htlen2, hbe] at henc
                      have hlenlen : (rest.take (b - 183)).length = b - 183 := by
                        rw [List.length_take]; omega
                      rw [hlenlen, show 183 + (b - 183) = b by omega] at henc
                      have hc := IsRlpEncList.cons (RlpItem.bytes (rest2.take len))
                        (encodeBytes (rest2.take len)) items2 (rest2.drop len)
                        (IsRlpEnc.bytes _) hIH
                      rw [henc] at hc
                      have hfinal : (b :: rest.take (b - 183) ++ rest2.take len)
                          ++ rest2.drop len = b :: rest := by
                        rw [hrest2def]
                        simp [List.append_assoc, List.take_append_drop]
                      rwa [hfinal] at hc
                  · rw [if_neg hlen2] at hparse; simp at hparse
            · rw [if_neg hll] at hparse; simp at hparse
          · rw [if_neg hb3] at hparse
            by_cases hb4 : b < 248
            · rw [if_pos hb4] at hparse
              by_cases hlen : b - 192 ≤ rest.length
              · rw [if_pos hlen] at hparse
                cases hrecP : parseRlpItems fuel (rest.take (b - 192)) with
                | error e => rw [hrecP] at hparse; simp at hparse
                | ok inner =>
                  rw [hrecP] at hparse
                  cases hrecR : parseRlpItems fuel (rest.drop (b - 192)) with
                  | error e => rw [hrecR] at hparse; simp [Except.map] at hparse
                  | ok items2 =>
                    rw [hrecR] at hparse
                    simp [Except.map] at hparse
                    subst hparse
                    have hInner := ih (rest.take (b - 192))
                      (fun x hx => hrestbytes x (List.mem_of_mem_take hx)) inner hrecP
                    have hIH2 := ih (rest.drop (b - 192))
                      (fun x hx => hrestbytes x (List.mem_of_mem_drop hx)) items2 hrecR
                    have htlen : (rest.take (b - 192)).length = b - 192 := by
                      rw [List.length_take]; omega
                    have hencL := IsRlpEnc.list inner (rest.take (b - 192)) hInner
                    rw [htlen, encodeLength, if_pos (by omega : b - 192 < 56),
                      show 192 + (b - 192) = b by omega] at hencL
                    have hc := IsRlpEncList.cons (RlpItem.list inner)
                      ([b] ++ rest.take (b - 192)) items2 (rest.drop (b - 192)) hencL hIH2
                    have hfinal : ([b] ++ rest.take (b - 192)) ++ rest.drop (b - 192)
                        = b :: rest := by
                      simp [List.append_assoc, List.take_append_drop]
                    rwa [hfinal] at hc
              · rw [if_neg hlen] at hparse; simp at hparse
            · rw [if_neg hb4] at hparse
              by_cases hll : b - 247 ≤ rest.length
              · rw [if_pos hll] at hparse
                by_cases hzero : (rest.take (b - 247)).headD 0 = 0
                · rw [if_pos hzero] at hparse; simp at hparse
                · rw [if_neg hzero] at hparse
                  by_cases hsmall : readBE (rest.take (b - 247)) < 56
                  · rw [if_pos hsmall] at hparse; simp at hparse
                  · rw [if_neg hsmall] at hparse
                    by_cases hlen2 : readBE (rest.take (b - 247)) ≤ (rest.drop (b - 247)).length
                    · rw [if_pos hlen2] at hparse
                      set len := readBE (rest.take (b - 247)) with hlendef
                      set rest2 := rest.drop (b - 247) with hrest2def
                      cases hrecP : parseRlpItems fuel (rest2.take len) with
                      | error e => rw [hrecP] at hparse; simp at hparse
                      | ok inner =>
                        rw [hrecP] at hparse
                        cases hrecR : parseRlpItems fuel (rest2.drop len) with
                        | error e => rw [hrecR] at hparse; simp [Except.map] at hparse
                        | ok items2 =>
                          rw [hrecR] at hparse
                          simp [Except.map] at hparse
                          subst hparse
                          have hr2bytes : ∀ x ∈ rest2, x < 256 :=
                            fun x hx => hrestbytes x (List.mem_of_mem_drop hx)
                          have hInner := ih (rest2.take len)
                            (fun x hx => hr2bytes x (List.mem_of_mem_take hx)) inner hrecP
                          have hIH2 := ih (rest2.drop len)
                            (fun x hx => hr2bytes x (List.mem_of_mem_drop hx)) items2 hrecR
                          have hlnonempty : rest.take (b - 247) ≠ [] := by
                            intro hnil
                            rw [hnil] at hzero
                            simp at hzero
                          have hlbytes : ∀ x ∈ rest.take (b - 247), x < 256 :=
                            fun x hx => hrestbytes x (List.mem_of_mem_take hx)
                          have hbe : beBytes len = rest.take (b - 247) :=
                            beBytes_readBE _ hlnonempty hzero hlbytes
                          have htlen2 : (rest2.take len).length = len := by
                            rw [List.length_take]; omega
                          have hencL := IsRlpEnc.list inner (rest2.take len) hInner
                          rw [htlen2, encodeLength, if_neg (by omega : ¬ len < 56), hbe] at hencL
                          have hlenlen : (rest.take (b - 247)).length = b - 247 := by
                            rw [List.length_take]; omega
                          rw [hlenlen, show 192 + 55 + (b - 247) = b by omega] at hencL
                          have hc := IsRlpEncList.cons (RlpItem.list inner)
                            ((b :: rest.take (b - 247)) ++ rest2.take len) items2
                            (rest2.drop len) hencL hIH2
                          have hfinal : ((b :: rest.take (b - 247)) ++ rest2.take len)
                              ++ rest2.drop len = b :: rest := by
                            rw [hrest2def]
                            simp [List.append_assoc, List.take_append_drop]
                          rwa [hfinal] at hc
                    · rw [if_neg hlen2] at hparse; simp at hparse
              · rw [if_neg hll] at hparse; simp at hparse

theorem rlpDecodeToList_sound (src : List Nat) (hbytes : ∀ x ∈ src, x < 256)
    (items : List RlpItem) (hok : rlpDecodeToList src = .ok items) :
    IsRlpEnc (.list items) src := by
  unfold rlpDecodeToList at hok
  cases hp : parseRlpItems (src.length + 1) src with
  | error e => rw [hp] at hok; simp at hok
  | ok top =>
    rw [hp] at hok
    match top, hok with
    | [.list items2], hok =>
      have hsound := parseRlpItems_sound (src.length + 1) src hbytes _ hp
      simp at hok
      subst hok
      cases hsound with
      | cons _ enc _ restEnc henc hrest =>
        have : restEnc = [] := isRlpEncList_nil_inv restEnc hrest
        subst this
        simpa using henc

/-- Claim C3: trie-node decode returns a successfully built node only when the
outer bytes are the canonical RLP encoding of a list whose element count is 2
or 17; for a byte string that is not a well-formed RLP list, or a list of any
other element count, it fails with an error (never a successfully built
node). -/
theorem DecodeTrieNodeBytes_shape (src : List Nat) (codec : Nat) (node : TrieNode)
    (hok : DecodeTrieNodeBytes src codec = .ok node)
    (hbytes : ∀ x ∈ src, x < 256) :
    ∃ items, IsRlpEnc (.list items) src ∧ (items.length = 2 ∨ items.length = 17) := by
  unfold DecodeTrieNodeBytes at hok
  cases hd : rlpDecodeToList src with
  | error e => rw [hd] at hok; simp [Bind.bind, Except.bind] at hok
  | ok items =>
    rw [hd] at hok
    simp only [Bind.bind, Except.bind] at hok
    refine ⟨items, rlpDecodeToList_sound src hbytes items hd, ?_⟩
    by_cases h2 : items.length = 2
    · exact Or.inl h2
    · by_cases h17 : items.length = 17
      · exact Or.inr h17
      · rw [if_neg h2, if_neg h17] at hok
        simp at hok

/-- Witness for claim C3 at a concrete decodable extension node. -/
theorem DecodeTrieNodeBytes_shape_witness :
    ∃ items, IsRlpEnc (.list items) extWitnessRLP ∧
      (items.length = 2 ∨ items.length = 17) :=
  DecodeTrieNodeBytes_shape extWitnessRLP cidEthStorageTrie
    (.extension [1] (.link ⟨cidEthStorageTrie, List.replicate 32 0xcc⟩))
    (by rfl) (by decide)

/-- Helper: the classification behaviour of decodeTwoMemberNode on a 2-member
node whose first member is a non-empty byte string. -/
theorem decodeTwoMemberNode_cases (f0 : Nat) (fs : List Nat) (snd : RlpItem) :
    (f0 / 16 = 0 ∨ f0 / 16 = 1 →
      decodeTwoMemberNode [.bytes (f0 :: fs), snd]
        = .ok (.extension, [.bytes (compactToHex (f0 :: fs)), snd]))
    ∧ (f0 / 16 = 2 ∨ f0 / 16 = 3 →
      decodeTwoMemberNode [.bytes (f0 :: fs), snd]
        = .ok (.leaf, [.bytes (compactToHex (f0 :: fs)), snd]))
    ∧ (4 ≤ f0 / 16 →
      decodeTwoMemberNode [.bytes (f0 :: fs), snd] = .error .unknownHexPrefix) := by
  refine ⟨?_, ?_, ?_⟩ <;> intro h
  · simp [decodeTwoMemberNode, h]
  · have hno : ¬(f0 / 16 = 0 ∨ f0 / 16 = 1) := by omega
    simp [decodeTwoMemberNode, hno, h]
  · have hno1 : ¬(f0 / 16 = 0 ∨ f0 / 16 = 1) := by omega
    have hno2 : ¬(f0 / 16 = 2 ∨ f0 / 16 = 3) := by omega
    simp [decodeTwoMemberNode, hno1, hno2]

/-- Claim C6: for a 2-member RLP list whose first element is a non-empty byte
string, decode classifies by the top nibble of the first byte: 0 or 1 yields
the Extension kind, 2 or 3 yields the Leaf kind, and any other top nibble
fails with the unknown-hex-prefix error. -/
theorem decodeTwoMemberNode_classification (f0 : Nat) (fs : List Nat) (snd : RlpItem) :
    (f0 / 16 = 0 ∨ f0 / 16 = 1 →
      decodeTwoMemberNode [.bytes (f0 :: fs), snd]
        = .ok (.extension, [.bytes (compactToHex (f0 :: fs)), snd]))
    ∧ (f0 / 16 = 2 ∨ f0 / 16 = 3 →
      decodeTwoMemberNode [.bytes (f0 :: fs), snd]
        = .ok (.leaf, [.bytes (compactToHex (f0 :: fs)), snd]))
    ∧ (4 ≤ f0 / 16 →
      decodeTwoMemberNode [.bytes (f0 :: fs), snd] = .error .unknownHexPrefix) :=
  decodeTwoMemberNode_cases f0 fs snd

/-- Witness for claim C6 at the top nibbles 1, 3 and 9. -/
theorem decodeTwoMemberNode_classification_witness :
    decodeTwoMemberNode [.bytes [0x11], .bytes []]
      = .ok (.extension, [.bytes (compactToHex [0x11]), .bytes []])
    ∧ decodeTwoMemberNode [.bytes [0x31], .bytes []]
      = .ok (.leaf, [.bytes (compactToHex [0x31]), .bytes []])
    ∧ decodeTwoMemberNode [.bytes [0x99], .bytes []] = .error .unknownHexPrefix :=
  ⟨(decodeTwoMemberNode_classification 0x11 [] (.bytes [])).1 (by decide),
   (decodeTwoMemberNode_classification 0x31 [] (.bytes [])).2.1 (by decide),
   (decodeTwoMemberNode_classification 0x99 [] (.bytes [])).2.2 (by decide)⟩

/-- Counterexample to claim C4: a 2-member extension list whose second element
is a 2-byte string (not a 32-byte digest) decodes successfully into an
Extension node carrying those 2 bytes as its child reference digest, instead
of failing with an error as the claim requires. -/
theorem unpackExtensionNode_cex :
    DecodeTrieNodeBytes shortExtensionRLP cidEthStorageTrie
      = .ok (.extension [1] (.link ⟨cidEthStorageTrie, [0xab, 0xcd]⟩)) := by rfl

/-- Claim C4 (amended): when decoding a 2-element list classified as an
Extension node, the second element must be a byte string; a byte string of any
length is accepted and wrapped, unchecked, as the child reference digest, and
only a nested-list second element makes decode fail (with the type-assertion
error). -/
theorem unpackExtensionNode_amended (pp d : List Nat) (l : List RlpItem) (codec : Nat) :
    unpackExtensionNode [.bytes pp, .bytes d] codec
      = .ok (.extension pp (.link ⟨codec, d⟩))
    ∧ unpackExtensionNode [.bytes pp, .list l] codec = .error .extensionChildAssert :=
  ⟨rfl, rfl⟩

/-- Claim C10: trie-node decode crashes (modelled goPanic) instead of returning
an error when a 2-member node's first element is an empty byte string (index
out of range) or a nested list (failed type assertion), both at the
decodeTwoMemberNode level and through DecodeTrieNodeBytes; when the first
element is a non-empty byte string the classifier never crashes. -/
theorem decodeTwoMemberNode_panics :
    decodeTwoMemberNode [.bytes [], .bytes []] = .error .goPanic
    ∧ decodeTwoMemberNode [.list [], .bytes []] = .error .goPanic
    ∧ DecodeTrieNodeBytes emptyFirstRLP cidEthStorageTrie = .error .goPanic
    ∧ DecodeTrieNodeBytes listFirstRLP cidEthStorageTrie = .error .goPanic
    ∧ (∀ (f0 : Nat) (fs : List Nat) (snd : RlpItem),
        decodeTwoMemberNode [.bytes (f0 :: fs), snd] ≠ .error .goPanic) := by
  refine ⟨rfl, rfl, rfl, rfl, ?_⟩
  intro f0 fs snd hc
  by_cases h1 : f0 / 16 = 0 ∨ f0 / 16 = 1
  · simp [decodeTwoMemberNode, h1] at hc
  · by_cases h2 : f0 / 16 = 2 ∨ f0 / 16 = 3
    · simp [decodeTwoMemberNode, h1, h2] at hc
    · simp [decodeTwoMemberNode, h1, h2] at hc

/-- Claim C1 (code bug exhibit): under the state-trie content domain, the
canonical consensus RLP of a leaf node holding an account whose storage root
differs from its code hash decodes successfully, but re-encoding the decoded
node produces different bytes: the re-encoded account's code-hash slot carries
the storage root, because unpackCodeCID built the CodeCID from account.Root. -/
theorem trieRoundTrip_state_leaf_bug :
    DecodeTrieNodeBytes mockStateLeafRLP cidEthStateTrie = .ok mockStateLeafNode
    ∧ AppendEncode mockStateLeafNode = .ok mockStateLeafReEncoded
    ∧ mockStateLeafReEncoded ≠ mockStateLeafRLP :=
  ⟨by rfl, by rfl, by decide⟩

/-- Claim C7 (code bug exhibit): a canonical DynamicFee receipt encoding
decodes successfully, but re-encoding the decoded node fails instead of
reproducing the bytes: the encoder packs a PostStateOrStatus field the decoded
Receipt node does not have, and its typed-envelope switch rejects every type
byte other than Legacy 0x00 and AccessList 0x01, in particular DynamicFee
0x02. -/
theorem rctRoundTrip_dynamicFee_bug :
    rctDecodeBytes dfReceiptEnc = .ok dfReceiptNode
    ∧ rctAppendEncode dfReceiptNode = .error (.missingField "PostStateOrStatus")
    ∧ (∀ payload : List Nat, rctEnvelope 2 payload = .error (.unrecognizedTxType 2)) :=
  ⟨by rfl, by rfl, fun _ => rfl⟩

/-- Claim C8 (code bug exhibit): decoding the consensus RLP of an account whose
storage root differs from its code hash yields a StorageRootCID that is a
storage-trie reference carrying the root digest, as the claim states, but a
CodeCID whose digest is the storage ROOT rather than the code hash, because
unpackCodeCID passes account.Root to the multihash encoder. -/
theorem accountDecode_codeCID_bug :
    accountDecodeBytes mockAccountRLP = .ok (DecodeAccount mockGoAccount)
    ∧ (DecodeAccount mockGoAccount).storageRootCID = ⟨cidEthStorageTrie, mockGoAccount.root⟩
    ∧ (DecodeAccount mockGoAccount).codeCID = ⟨cidRaw, mockGoAccount.root⟩
    ∧ mockGoAccount.root ≠ mockGoAccount.codeHash
    ∧ (DecodeAccount mockGoAccount).codeCID.digest ≠ mockGoAccount.codeHash :=
  ⟨by rfl, rfl, rfl, by decide, by decide⟩

/-- Helper: a successful unpackLeafNode always builds a leaf node. -/
theorem unpackLeafNode_shape (fields : List RlpItem) (codec : Nat) (n : TrieNode)
    (hok : unpackLeafNode fields codec = .ok n) : ∃ pp v, n = .leaf pp v := by
  match fields with
  | [] => simp [unpackLeafNode] at hok
  | [_] => simp [unpackLeafNode] at hok
  | .list _ :: _ :: _ => simp [unpackLeafNode] at hok
  | .bytes pp :: .list _ :: _ => simp [unpackLeafNode] at hok
  | .bytes pp :: .bytes valBytes :: _ =>
    simp only [unpackLeafNode] at hok
    cases hv : unpackValue valBytes codec with
    | error e => rw [hv] at hok; simp [Except.map] at hok
    | ok v =>
      rw [hv] at hok
      simp [Except.map] at hok
      exact ⟨pp, v, hok.symm⟩

/-- Counterexample to claim C5: a branch whose slot 0 holds the nested
2-member list of two empty byte strings is a non-empty slot value that is
neither 32 bytes nor a list classifying as a Leaf, yet decode does not fail
with the invalid-inline-child error: it crashes (modelled goPanic) inside the
nested classification. -/
theorem unpackBranchNode_crash_cex :
    DecodeTrieNodeBytes crashBranchRLP cidEthStorageTrie = .error .goPanic := by rfl

/-- Claim C5 (amended): a branch child slot holding a non-empty byte string
that is not exactly 32 bytes fails with an error, a nested list whose element
count is not 2 fails with an error, and a nested 2-member list whose first
element is a non-empty byte string that does not classify as a Leaf fails with
an error (extension kinds and unknown prefixes are rejected); when the nested
first element is empty or itself a list the decoder crashes instead (claim
C10); and every successfully decoded child slot is null, a reference, or an
inline Leaf node. -/
theorem unpackBranchChild_amended (codec : Nat) :
    (∀ bs : List Nat, bs ≠ [] → bs.length ≠ 32 →
      unpackBranchChild (.bytes bs) codec = .error (.branchChildLength bs.length))
    ∧ (∀ l : List RlpItem, l.length ≠ 2 →
      unpackBranchChild (.list l) codec = .error (.inlineEntryCount l.length))
    ∧ (∀ (f0 : Nat) (fs : List Nat) (snd : RlpItem), f0 / 16 = 0 ∨ f0 / 16 = 1 →
      unpackBranchChild (.list [.bytes (f0 :: fs), snd]) codec = .error .inlineNotLeaf)
    ∧ (∀ (f0 : Nat) (fs : List Nat) (snd : RlpItem), 4 ≤ f0 / 16 →
      unpackBranchChild (.list [.bytes (f0 :: fs), snd]) codec = .error .unknownHexPrefix)
    ∧ (∀ (item : RlpItem) (child : Child), unpackBranchChild item codec = .ok child →
      child = .null ∨ (∃ r, child = .link r) ∨ ∃ pp v, child = .inline (.leaf pp v)) := by
  refine ⟨?_, ?_, ?_, ?_, ?_⟩
  · intro bs hne hlen
    have h0 : bs.length ≠ 0 := by
      intro h; exact hne (List.length_eq_zero.mp h)
    simp [unpackBranchChild, h0, hlen]
  · intro l hlen
    simp [unpackBranchChild, hlen]
  · intro f0 fs snd h
    have hcl := (decodeTwoMemberNode_cases f0 fs snd).1 h
    simp [unpackBranchChild, hcl]
  · intro f0 fs snd h
    have hcl := (decodeTwoMemberNode_cases f0 fs snd).2.2 h
    simp [unpackBranchChild, hcl]
  · intro item child hok
    match item with
    | .bytes bs =>
      by_cases h0 : bs.length = 0
      · simp [unpackBranchChild, h0] at hok
        exact Or.inl hok.symm
      · by_cases h32 : bs.length = 32
        · simp [unpackBranchChild, h0, h32] at hok
          exact Or.inr (Or.inl ⟨_, hok.symm⟩)
        · simp [unpackBranchChild, h0, h32] at hok
    | .list l =>
      by_cases h2 : l.length = 2
      · simp only [unpackBranchChild, h2] at hok
        simp at hok
        cases hd : decodeTwoMemberNode l with
        | error e => rw [hd] at hok; simp at hok
        | ok kd =>
          rw [hd] at hok
          obtain ⟨kind, decoded⟩ := kd
          simp at hok
          by_cases hkind : kind = NodeKind.leaf
          · subst hkind
            simp at hok
            cases hu : unpackLeafNode decoded codec with
            | error e => rw [hu] at hok; simp [Except.map] at hok
            | ok n =>
              rw [hu] at hok
              simp [Except.map] at hok
              obtain ⟨pp, v, hn⟩ := unpackLeafNode_shape decoded codec n hu
              exact Or.inr (Or.inr ⟨pp, v, by rw [← hok, hn]⟩)
          · simp [hkind] at hok
      · simp [unpackBranchChild, h2] at hok

/-- Witness for the amended claim C5 at concrete child slot values. -/
theorem unpackBranchChild_amended_witness :
    unpackBranchChild (.bytes [1, 2]) cidEthStorageTrie = .error (.branchChildLength 2)
    ∧ unpackBranchChild (.list []) cidEthStorageTrie = .error (.inlineEntryCount 0)
    ∧ unpackBranchChild (.list [.bytes [0x11], .bytes []]) cidEthStorageTrie
        = .error .inlineNotLeaf
    ∧ unpackBranchChild (.list [.bytes [0x99], .bytes []]) cidEthStorageTrie
        = .error .unknownHexPrefix
    ∧ (Child.null = .null ∨ (∃ r, Child.null = .link r)
        ∨ ∃ pp v, Child.null = .inline (.leaf pp v)) :=
  ⟨(unpackBranchChild_amended cidEthStorageTrie).1 [1, 2] (by decide) (by decide),
   (unpackBranchChild_amended cidEthStorageTrie).2.1 [] (by decide),
   (unpackBranchChild_amended cidEthStorageTrie).2.2.1 0x11 [] (.bytes []) (by decide),
   (unpackBranchChild_amended cidEthStorageTrie).2.2.2.1 0x99 [] (.bytes []) (by decide),
   (unpackBranchChild_amended cidEthStorageTrie).2.2.2.2 (.bytes []) .null (by rfl)⟩

/-- Helper: DecodeReceipt always makes Status and PostState mutually
exclusive. -/
theorem DecodeReceipt_status_exclusive (rct : GoReceipt) (node : RctNode)
    (hok : DecodeReceipt rct = .ok node) :
    (node.status.isSome ↔ node.postState = none)
    ∧ (0 < rct.postState.length → node.postState = some rct.postState ∧ node.status = none)
    ∧ (rct.postState.length = 0 → node.postState = none ∧ ∃ sb, node.status = some sb) := by
  unfold DecodeReceipt unpackPostStateOrStatus at hok
  by_cases hps : 0 < rct.postState.length
  · rw [if_pos hps] at hok
    simp [Bind.bind, Except.bind] at hok
    subst hok
    refine ⟨by simp, fun _ => ⟨rfl, rfl⟩, fun h => by omega⟩
  · rw [if_neg hps] at hok
    by_cases h0 : rct.status = 0
    · rw [if_pos h0] at hok
      simp [Bind.bind, Except.bind] at hok
      subst hok
      exact ⟨by simp, fun h => absurd h hps, fun _ => ⟨rfl, ⟨_, rfl⟩⟩⟩
    · rw [if_neg h0] at hok
      by_cases h1 : rct.status = 1
      · rw [if_pos h1] at hok
        simp [Bind.bind, Except.bind] at hok
        subst hok
        exact ⟨by simp, fun h => absurd h hps, fun _ => ⟨rfl, ⟨_, rfl⟩⟩⟩
      · rw [if_neg h1] at hok
        simp [Bind.bind, Except.bind] at hok

/-- Claim C9: for every receipt that decodes successfully, exactly one of the
Status and PostState fields of the resulting graph node is non-null: a
non-empty post-state sets PostState and nulls Status, and a status-style
receipt sets Status and nulls PostState. -/
theorem rctDecode_status_exclusive (src : List Nat) (node : RctNode)
    (hok : rctDecodeBytes src = .ok node) :
    (node.status.isSome ↔ node.postState = none)
    ∧ ∃ rct, rctUnmarshalBinary src = .ok rct
      ∧ (0 < rct.postState.length → node.postState = some rct.postState ∧ node.status = none)
      ∧ (rct.postState.length = 0 → node.postState = none ∧ ∃ sb, node.status = some sb) := by
  unfold rctDecodeBytes at hok
  cases hu : rctUnmarshalBinary src with
  | error e => rw [hu] at hok; simp [Bind.bind, Except.bind] at hok
  | ok rct =>
    rw [hu] at hok
    simp only [Bind.bind, Except.bind] at hok
    have := DecodeReceipt_status_exclusive rct node hok
    exact ⟨this.1, rct, rfl, this.2.1, this.2.2⟩

/-- Witness for claim C9 at the concrete DynamicFee receipt encoding. -/
theorem rctDecode_status_exclusive_witness :
    (dfReceiptNode.status.isSome ↔ dfReceiptNode.postState = none)
    ∧ ∃ rct, rctUnmarshalBinary dfReceiptEnc = .ok rct
      ∧ (0 < rct.postState.length →
          dfReceiptNode.postState = some rct.postState ∧ dfReceiptNode.status = none)
      ∧ (rct.postState.length = 0 →
          dfReceiptNode.postState = none ∧ ∃ sb, dfReceiptNode.status = some sb) :=
  rctDecode_status_exclusive dfReceiptEnc dfReceiptNode (by rfl)

end DagEth

